import Mathlib

/-!
Verification of the buddy-agent provisioning workflow
(`service/agent/service.go`, most complete handler variant).

Go strings are modelled as `List Char` (one entry per rune, matching Go's
`for … range` iteration and `[]rune` conversions).  Machine-level byte
slicing only occurs on ASCII hex strings, where it coincides with rune
slicing.  The MongoDB document store is modelled as in-memory lists of
documents; the external text-generation / image-generation / object-storage
calls are oracle values (`Except Unit …`) supplied to each workflow run.
-/

deriving instance DecidableEq for Except

namespace BuddyAgent

/-- Go `unicode.IsSpace`: the Unicode White_Space code points
(Latin-1 fast path plus the Zs/Zl/Zp characters). -/
def isGoSpace (c : Char) : Bool :=
  decide (c.toNat = 0x09 ∨ c.toNat = 0x0A ∨ c.toNat = 0x0B ∨ c.toNat = 0x0C ∨
    c.toNat = 0x0D ∨ c.toNat = 0x20 ∨ c.toNat = 0x85 ∨ c.toNat = 0xA0 ∨
    c.toNat = 0x1680 ∨ (0x2000 ≤ c.toNat ∧ c.toNat ≤ 0x200A) ∨
    c.toNat = 0x2028 ∨ c.toNat = 0x2029 ∨ c.toNat = 0x202F ∨ c.toNat = 0x205F ∨
    c.toNat = 0x3000)

/-- The cutset of Go `strings.Trim(s, "._")`. -/
def isCut (c : Char) : Bool := decide (c = '_' ∨ c = '.')

/-- Characters the sanitized username alphabet consists of:
lowercase ASCII letters, ASCII digits, underscore, dot. -/
def isUserChar (c : Char) : Bool :=
  decide ((0x61 ≤ c.toNat ∧ c.toNat ≤ 0x7A) ∨ (0x30 ≤ c.toNat ∧ c.toNat ≤ 0x39) ∨
    c = '_' ∨ c = '.')

/-- Go `unicode.ToLower`, restricted to the part `sanitizeUsername`
observes: the only runes whose Unicode lowercase form lies in `a`-`z`
are `A`-`Z`, `İ` (U+0130) and `K` (U+212A); every other rune never
lowers into `a`-`z`, so mapping it to itself is faithful for the
`'a' <= lower && lower <= 'z'` test that consumes this value. -/
def goToLower (c : Char) : Char :=
  if 0x41 ≤ c.toNat ∧ c.toNat ≤ 0x5A then Char.ofNat (c.toNat + 32)
  else if c.toNat = 0x130 then 'i'
  else if c.toNat = 0x212A then 'k'
  else c

/-- One iteration of the `switch` in `sanitizeUsername`'s builder loop:
digits and `_`/`.` are kept verbatim, other runes are kept (lowered)
exactly when their lowercase form is in `a`-`z`. -/
def keepRune (r : Char) : Option Char :=
  if 0x30 ≤ r.toNat ∧ r.toNat ≤ 0x39 then some r
  else if r = '_' ∨ r = '.' then some r
  else if 0x61 ≤ (goToLower r).toNat ∧ (goToLower r).toNat ≤ 0x7A then
    some (goToLower r)
  else none

/-- Remove the maximal trailing run of characters satisfying `p`
(the right half of Go `strings.Trim` / `strings.TrimSpace`). -/
def dropTrailing (p : Char → Bool) (l : List Char) : List Char :=
  (l.reverse.dropWhile p).reverse

/-- Go `strings.TrimSpace`. -/
def goTrimSpace (l : List Char) : List Char :=
  dropTrailing isGoSpace (l.dropWhile isGoSpace)

/-- Go `strings.Trim(s, "._")`. -/
def trimCutset (l : List Char) : List Char :=
  dropTrailing isCut (l.dropWhile isCut)

/-- Go `strings.TrimPrefix(s, "@")`: drop one leading `@` if present. -/
def dropLeadingAt (l : List Char) : List Char :=
  match l with
  | c :: rest => if c = '@' then rest else c :: rest
  | [] => []

/-- `maxSocialUsernameLength` from the source. -/
def maxSocialUsernameLength : Nat := 20

/-- `sanitizeUsername` from `service/agent/service.go`:
trim whitespace, strip one leading `@`, delete spaces, keep only
`[a-z0-9_.]` (lowering letters), trim leading/trailing `.`/`_`,
truncate to 20 runes. -/
def sanitizeUsername (text : List Char) : List Char :=
  let t1 := goTrimSpace text
  let t2 := dropLeadingAt t1
  let t3 := t2.filter (fun c => decide (c ≠ ' '))
  if t3 = [] then []
  else
    let built := t3.filterMap keepRune
    let username := trimCutset built
    if username = [] then []
    else if username.length > maxSocialUsernameLength then
      username.take maxSocialUsernameLength
    else username

/-- Accumulator form of Go `strings.Fields`: split around runs of
`unicode.IsSpace` characters; `acc` holds the current word reversed. -/
def fieldsAux : List Char → List Char → List (List Char)
  | [], acc => if acc = [] then [] else [acc.reverse]
  | c :: rest, acc =>
    if isGoSpace c then
      if acc = [] then fieldsAux rest [] else acc.reverse :: fieldsAux rest []
    else fieldsAux rest (c :: acc)

/-- Go `strings.Fields`. -/
def goFields (l : List Char) : List (List Char) := fieldsAux l []

/-- Go `strings.Join(words, " ")`. -/
def joinSpace : List (List Char) → List Char
  | [] => []
  | [w] => w
  | w :: w2 :: ws => w ++ (' ' :: joinSpace (w2 :: ws))

/-- No two adjacent characters are both whitespace (the shape produced by
collapsing whitespace runs to single separators). -/
def noDoubleSpace : List Char → Bool
  | [] => true
  | [_] => true
  | a :: b :: rest => (!(isGoSpace a && isGoSpace b)) && noDoubleSpace (b :: rest)

/-- `sanitizeStatus` from the source: replace newlines by spaces, collapse
whitespace runs via `Fields`/`Join`, trim, truncate to 140 runes and trim
the truncated prefix again. -/
def sanitizeStatus (text : List Char) : List Char :=
  let t1 := text.map (fun c => if c = '\n' then ' ' else c)
  let t2 := joinSpace (goFields t1)
  let t3 := goTrimSpace t2
  if t3.length > 140 then goTrimSpace (t3.take 140) else t3

/-- The fixed separator of `buildChatPrompt`. -/
def chatSeparator : List Char := "\n\nUser prompt:\n".data

/-- `buildChatPrompt` from the source. -/
def buildChatPrompt (systemPrompt userPrompt : List Char) : List Char :=
  let s := goTrimSpace systemPrompt
  let u := goTrimSpace userPrompt
  if s = [] then u else s ++ chatSeparator ++ u

/-- `buildSystemPrompt` from the source (template substitution
followed by `strings.TrimSpace`). -/
def buildSystemPrompt (name personality gender : List Char) : List Char :=
  goTrimSpace ("You are ".data ++ name ++
    ", a human-like friend. Personality: ".data ++ personality ++
    ". Gender identity: ".data ++ gender ++
    ".\n\tStay in character like a close friend chatting over text: short sentences, natural tone, light slang or emojis when it fits.\n\tBe supportive, practical, and concise while keeping responses warm and human.".data)

/-- `fallbackSocialUsername` from the source.  `idHex` models
`agent.ID.Hex()` and `nowStr` models `fmt.Sprintf("%d",
time.Now().UnixNano())`; both are ASCII, so the byte slice
`suffix[:4]` coincides with `take 4` on runes. -/
def fallbackSocialUsername (name idHex nowStr seed : List Char) : List Char :=
  let base0 := sanitizeUsername seed
  let base1 := if base0 = [] then sanitizeUsername name else base0
  let base := if base1 = [] then "agent".data else base1
  let suffix0 := if idHex = [] then nowStr else idHex
  let suffix := if suffix0.length > 4 then suffix0.take 4 else suffix0
  let candidate := sanitizeUsername (base ++ "_".data ++ suffix)
  if candidate = [] then sanitizeUsername ("buddy_".data ++ suffix) else candidate

/-- The error cases of the enrichment job (`generateAndPersistSocialProfile`
and its callees).  `placeholderMissing` is the matched-count-zero branch,
the spec's `ConsistencyError`. -/
inductive EnrichError where
  | loadAgent
  | upstreamUsername
  | emptyUsername
  | upstreamStatus
  | emptyStatus
  | updateFailed
  | placeholderMissing
deriving DecidableEq, Repr

/-- The pure core of `generateSocialUsername`, applied to a successful
text-generation response `resp` for the agent with the given name and
document key. -/
def generateSocialUsernameCore (name idHex nowStr resp : List Char) :
    Except EnrichError (List Char) :=
  let u0 := sanitizeUsername resp
  let u1 := if u0 = [] then fallbackSocialUsername name idHex nowStr name else u0
  let agentHandle := sanitizeUsername name
  let u2 := if agentHandle ≠ [] ∧ u1 = agentHandle then
    fallbackSocialUsername name idHex nowStr u1 else u1
  if u2 = [] then .error .emptyUsername else .ok u2

/-- An `agents`-collection document as inserted by `CreateAgent`
(`_id` is modelled by its hex string). -/
structure AgentDoc where
  id : List Char
  name : List Char
  personality : List Char
  gender : List Char
  system_prompt : List Char
  appearance_description : List Char
  base_appearance_referance_url : List Char
  created_at : Nat
deriving DecidableEq, Repr

/-- An `agent_social_profiles`-collection document. -/
structure ProfileDoc where
  agent_id : List Char
  username : List Char
  status : List Char
  profile_url : List Char
  created_at : Nat
  updated_at : Nat
deriving DecidableEq, Repr

/-- The document store: the two MongoDB collections the workflow touches. -/
structure Store where
  agents : List AgentDoc
  profiles : List ProfileDoc
deriving DecidableEq, Repr

/-- `FindOne` on the agents collection (first match by `_id`). -/
def findAgent? : List AgentDoc → List Char → Option AgentDoc
  | [], _ => none
  | a :: rest, aid => if a.id = aid then some a else findAgent? rest aid

/-- `FindOne` on the social-profile collection (first match by `agent_id`). -/
def findProfile? : List ProfileDoc → List Char → Option ProfileDoc
  | [], _ => none
  | p :: rest, aid => if p.agent_id = aid then some p else findProfile? rest aid

/-- `DeleteOne` by `_id`: remove the first matching agent document. -/
def deleteFirstAgent : List AgentDoc → List Char → List AgentDoc
  | [], _ => []
  | a :: rest, aid => if a.id = aid then rest else a :: deleteFirstAgent rest aid

/-- `UpdateByID` setting `base_appearance_referance_url` on the first match. -/
def updateFirstAgentBase : List AgentDoc → List Char → List Char → List AgentDoc
  | [], _, _ => []
  | a :: rest, aid, uri =>
    if a.id = aid then { a with base_appearance_referance_url := uri } :: rest
    else a :: updateFirstAgentBase rest aid uri

/-- Number of profile documents for a given agent key. -/
def countProfiles : List ProfileDoc → List Char → Nat
  | [], _ => 0
  | p :: rest, aid =>
    (if p.agent_id = aid then 1 else 0) + countProfiles rest aid

/-- The `$set {updated_at: now}` half of the placeholder upsert, applied to
the first document matching the agent key. -/
def setUpdatedFirst : List ProfileDoc → List Char → Nat → List ProfileDoc
  | [], _, _ => []
  | p :: rest, aid, now =>
    if p.agent_id = aid then { p with updated_at := now } :: rest
    else p :: setUpdatedFirst rest aid now

/-- The username stored by `createInitialSocialProfile`'s `$setOnInsert`:
the trimmed `username` argument, falling back to `agent_<key-hex>`. -/
def placeholderUsername (agentId username : List Char) : List Char :=
  let u := goTrimSpace username
  if u = [] then "agent_".data ++ agentId else u

/-- The document inserted on the placeholder upsert's no-match path
(`$setOnInsert` fields plus the unconditional `$set {updated_at}`). -/
def placeholderProfile (agentId username : List Char) (now : Nat) : ProfileDoc :=
  { agent_id := agentId, username := placeholderUsername agentId username,
    status := [], profile_url := [], created_at := now, updated_at := now }

/-- `createInitialSocialProfile`'s upsert (`UpdateOne` with
`SetUpsert(true)`, filter `{agent_id}`): an existing match only gets
`updated_at` refreshed; otherwise a document is inserted from the
`$setOnInsert` and `$set` fields. -/
def upsertInitialProfile (ps : List ProfileDoc) (agentId username : List Char)
    (now : Nat) : List ProfileDoc :=
  if ps.any (fun p => decide (p.agent_id = agentId)) then
    setUpdatedFirst ps agentId now
  else
    ps ++ [placeholderProfile agentId username now]

/-- The enrichment job's `UpdateOne` (no upsert): set username, status,
profile url and `updated_at` on the first matching profile, returning the
matched count (0 or 1). -/
def enrichFirstProfile : List ProfileDoc → List Char → List Char → List Char →
    List Char → Nat → List ProfileDoc × Nat
  | [], _, _, _, _, _ => ([], 0)
  | p :: rest, aid, u, st, url, now =>
    if p.agent_id = aid then
      ({ p with username := u, status := st, profile_url := url,
                updated_at := now } :: rest, 1)
    else
      let r := enrichFirstProfile rest aid u st url now
      (p :: r.1, r.2)

/-- The full Agent document inserted by `CreateAgent` in one write
(portrait reference empty). -/
def newAgentDoc (newId name personality gender sysPrompt appearance : List Char)
    (now : Nat) : AgentDoc :=
  { id := newId, name := name, personality := personality, gender := gender,
    system_prompt := sysPrompt, appearance_description := appearance,
    base_appearance_referance_url := [], created_at := now }

/-- Outcomes of the external calls and document-store operations performed
by one `CreateAgent` invocation. -/
structure Oracle where
  appearanceResp : Except Unit (List Char)
  imageResp : Except Unit (List Char × List Char)
  uploadResp : Except Unit (List Char)
  insertOk : Bool
  portraitUpdateOk : Bool
  profileUpsertOk : Bool
  deleteOk : Bool
deriving Repr

/-- Result of a `CreateAgent` invocation: the HTTP status codes the handler
writes (`400` validation, `502` upstream/bad-gateway, `500` persistence). -/
inductive CreateOutcome where
  | created (id baseUrl appearance : List Char)
  | failed (httpStatus : Nat)
deriving DecidableEq, Repr

/-- The synchronous portion of `CreateAgent`: validation, appearance
description, agent insert, `generateAndPersistBaseAppearance`
(find, image generation, upload, portrait-URI update),
`createInitialSocialProfile`, with the `cleanupAgent` compensation
(best-effort `DeleteOne` by the fresh `_id`) on the two late failures. -/
def createAgent (o : Oracle) (s : Store) (nm pers gen newId : List Char)
    (now : Nat) : Store × CreateOutcome :=
  let name := goTrimSpace nm
  let personality := goTrimSpace pers
  let gender := goTrimSpace gen
  if name = [] ∨ personality = [] ∨ gender = [] then (s, .failed 400)
  else
    let sysPrompt := buildSystemPrompt name personality gender
    match o.appearanceResp with
    | .error _ => (s, .failed 502)
    | .ok d =>
      let appearance := goTrimSpace d
      if o.insertOk = false then (s, .failed 500)
      else
        let s1 : Store :=
          { s with agents := s.agents ++
              [newAgentDoc newId name personality gender sysPrompt appearance now] }
        let cleanup : Store → Store := fun st =>
          if o.deleteOk then { st with agents := deleteFirstAgent st.agents newId }
          else st
        match findAgent? s1.agents newId with
        | none => (cleanup s1, .failed 502)
        | some _stored =>
          match o.imageResp with
          | .error _ => (cleanup s1, .failed 502)
          | .ok _img =>
            match o.uploadResp with
            | .error _ => (cleanup s1, .failed 502)
            | .ok uri =>
              if o.portraitUpdateOk = false then (cleanup s1, .failed 502)
              else
                let s2 : Store :=
                  { s1 with agents := updateFirstAgentBase s1.agents newId uri }
                if o.profileUpsertOk = false then (cleanup s2, .failed 500)
                else
                  let s3 : Store :=
                    { s2 with profiles := upsertInitialProfile s2.profiles newId name now }
                  (s3, .created newId uri appearance)

/-- Outcomes of the external calls of one enrichment-job run. -/
structure EnrichOracle where
  usernameResp : Except Unit (List Char)
  statusResp : Except Unit (List Char)
  updateOk : Bool
deriving Repr

/-- `generateAndPersistSocialProfile`: re-read the agent, derive username and
status, then `UpdateOne` the existing placeholder; a matched count of zero
is the `placeholderMissing` (`ConsistencyError`) failure. -/
def enrich (o : EnrichOracle) (s : Store) (aid nowStr : List Char) (now : Nat) :
    Store × Except EnrichError Unit :=
  match findAgent? s.agents aid with
  | none => (s, .error .loadAgent)
  | some stored =>
    match o.usernameResp with
    | .error _ => (s, .error .upstreamUsername)
    | .ok uResp =>
      match generateSocialUsernameCore stored.name stored.id nowStr uResp with
      | .error e => (s, .error e)
      | .ok username =>
        match o.statusResp with
        | .error _ => (s, .error .upstreamStatus)
        | .ok sResp =>
          let status := sanitizeStatus sResp
          if status = [] then (s, .error .emptyStatus)
          else if o.updateOk = false then (s, .error .updateFailed)
          else
            let r := enrichFirstProfile s.profiles aid username status
              stored.base_appearance_referance_url now
            if r.2 = 0 then ({ s with profiles := r.1 }, .error .placeholderMissing)
            else ({ s with profiles := r.1 }, .ok ())

/-- A fully successful oracle, used by concrete test runs. -/
def sampleOracleOk : Oracle :=
  { appearanceResp := .ok "a tall friend".data,
    imageResp := .ok ("img".data, "image/png".data),
    uploadResp := .ok "https://bucket/a1b2-base".data,
    insertOk := true, portraitUpdateOk := true, profileUpsertOk := true,
    deleteOk := true }

/-- A concrete committed Agent document, used by concrete test runs. -/
def sampleAgentDoc : AgentDoc :=
  newAgentDoc "a1b2".data "Mira".data "playful".data "female".data
    "sys".data "a tall friend".data 7

/-- A fully successful enrichment oracle, used by concrete test runs. -/
def sampleEnrichOracle : EnrichOracle :=
  { usernameResp := .ok ("Sparky".data),
    statusResp := .ok ("living my best life".data),
    updateOk := true }

/-! ### Character-class lemmas -/

theorem userChar_not_space {c : Char} (h : isUserChar c = true) :
    isGoSpace c = false := by
  simp only [isUserChar, decide_eq_true_eq] at h
  simp only [isGoSpace, decide_eq_false_iff_not]
  rcases h with h | h | rfl | rfl
  · intro hs
    rcases hs with h9 | h9 | h9 | h9 | h9 | h9 | h9 | h9 | h9 | h9 | h9 | h9 | h9 | h9 | h9 <;>
      omega
  · intro hs
    rcases hs with h9 | h9 | h9 | h9 | h9 | h9 | h9 | h9 | h9 | h9 | h9 | h9 | h9 | h9 | h9 <;>
      omega
  · decide
  · decide

theorem userChar_ne_blank {c : Char} (h : isUserChar c = true) : c ≠ ' ' := by
  intro h2
  subst h2
  exact absurd h (by decide)

theorem userChar_ne_at {c : Char} (h : isUserChar c = true) : c ≠ '@' := by
  intro h2
  subst h2
  exact absurd h (by decide)

theorem userChar_ne_newline {c : Char} (h : isUserChar c = true) : c ≠ '\n' := by
  intro h2
  subst h2
  exact absurd h (by decide)

theorem keepRune_userChar {c d : Char} (h : keepRune c = some d) :
    isUserChar d = true := by
  simp only [keepRune] at h
  split at h
  · cases h
    simp only [isUserChar, decide_eq_true_eq]
    rename_i hr
    exact Or.inr (Or.inl hr)
  · split at h
    · cases h
      simp only [isUserChar, decide_eq_true_eq]
      rename_i hr
      exact Or.inr (Or.inr hr)
    · split at h
      · cases h
        simp only [isUserChar, decide_eq_true_eq]
        rename_i hr
        exact Or.inl hr
      · cases h

theorem keepRune_id {c : Char} (h : isUserChar c = true) : keepRune c = some c := by
  simp only [isUserChar, decide_eq_true_eq] at h
  rcases h with h | h | rfl | rfl
  · have h1 : ¬ (0x30 ≤ c.toNat ∧ c.toNat ≤ 0x39) := by omega
    have h2 : ¬ (c = '_' ∨ c = '.') := by
      rintro (rfl | rfl) <;> exact absurd h (by decide)
    have h3 : goToLower c = c := by
      simp only [goToLower]
      rw [if_neg (by omega), if_neg (by omega), if_neg (by omega)]
    simp only [keepRune, h3]
    rw [if_neg h1, if_neg h2, if_pos h]
  · simp only [keepRune]
    rw [if_pos h]
  · decide
  · decide

/-! ### `dropWhile` / `dropTrailing` / trim lemmas -/

theorem mem_of_mem_dropWhile {p : Char → Bool} {l : List Char} {c : Char}
    (h : c ∈ l.dropWhile p) : c ∈ l :=
  (List.dropWhile_sublist p (l := l)).subset h

theorem head?_dropWhile {p : Char → Bool} {l : List Char} :
    ∀ c ∈ (l.dropWhile p).head?, p c = false := by
  induction l with
  | nil => simp
  | cons a rest ih =>
    intro c hc
    rw [List.dropWhile_cons] at hc
    split at hc
    · exact ih c hc
    · simp only [List.head?_cons, Option.mem_def, Option.some.injEq] at hc
      subst hc
      simp_all

theorem dropWhile_eq_self {p : Char → Bool} {l : List Char}
    (h : ∀ c ∈ l.head?, p c = false) : l.dropWhile p = l := by
  cases l with
  | nil => rfl
  | cons a rest =>
    rw [List.dropWhile_cons, if_neg]
    simp only [List.head?_cons, Option.mem_def, Option.some.injEq] at h
    simp [h a rfl]

theorem mem_dropWhile_of_mem {p : Char → Bool} {l : List Char} {c : Char}
    (hc : c ∈ l) (hp : p c = false) : c ∈ l.dropWhile p := by
  induction l with
  | nil => cases hc
  | cons a rest ih =>
    rw [List.dropWhile_cons]
    rcases List.mem_cons.mp hc with rfl | hrest
    · rw [if_neg (by simp [hp])]
      exact List.mem_cons_self _ _
    · split
      · exact ih hrest
      · exact List.mem_cons_of_mem _ hrest

theorem mem_of_getLast?_eq {l : List Char} {c : Char} (h : c ∈ l.getLast?) :
    c ∈ l := by
  induction l with
  | nil => cases h
  | cons a rest ih =>
    cases rest with
    | nil =>
      simp only [List.getLast?_singleton, Option.mem_def, Option.some.injEq] at h
      exact h ▸ List.mem_cons_self _ _
    | cons b rest' =>
      rw [List.getLast?_cons_cons] at h
      exact List.mem_cons_of_mem _ (ih h)

theorem mem_of_head?_eq {l : List Char} {c : Char} (h : c ∈ l.head?) :
    c ∈ l := by
  cases l with
  | nil => cases h
  | cons a rest =>
    simp only [List.head?_cons, Option.mem_def, Option.some.injEq] at h
    exact h ▸ List.mem_cons_self _ _

theorem getLast?_dropWhile_of_ne_nil {p : Char → Bool} {l : List Char}
    (h : l.dropWhile p ≠ []) : (l.dropWhile p).getLast? = l.getLast? := by
  induction l with
  | nil => rfl
  | cons a rest ih =>
    rw [List.dropWhile_cons] at h ⊢
    split at h
    · rw [if_pos (by assumption)]
      have hrest : rest ≠ [] := by
        intro he
        subst he
        exact h rfl
      rw [ih h]
      cases rest with
      | nil => exact absurd rfl hrest
      | cons b rest' => rw [List.getLast?_cons_cons]
    · rw [if_neg (by assumption)]

theorem mem_of_mem_dropTrailing {p : Char → Bool} {l : List Char} {c : Char}
    (h : c ∈ dropTrailing p l) : c ∈ l := by
  rw [dropTrailing] at h
  rw [List.mem_reverse] at h
  exact List.mem_reverse.mp (mem_of_mem_dropWhile h)

theorem head?_dropTrailing {p : Char → Bool} {l : List Char}
    (h : dropTrailing p l ≠ []) : (dropTrailing p l).head? = l.head? := by
  rw [dropTrailing] at h ⊢
  rw [List.head?_reverse]
  rw [getLast?_dropWhile_of_ne_nil (by simpa using h)]
  rw [List.getLast?_reverse]

theorem getLast?_dropTrailing {p : Char → Bool} {l : List Char} :
    ∀ c ∈ (dropTrailing p l).getLast?, p c = false := by
  intro c hc
  rw [dropTrailing, List.getLast?_reverse] at hc
  exact head?_dropWhile c hc

theorem dropTrailing_eq_self {p : Char → Bool} {l : List Char}
    (h : ∀ c ∈ l.getLast?, p c = false) : dropTrailing p l = l := by
  rw [dropTrailing, dropWhile_eq_self (by simpa [List.head?_reverse] using h),
    List.reverse_reverse]

theorem mem_dropTrailing_of_mem {p : Char → Bool} {l : List Char} {c : Char}
    (hc : c ∈ l) (hp : p c = false) : c ∈ dropTrailing p l := by
  rw [dropTrailing, List.mem_reverse]
  exact mem_dropWhile_of_mem (List.mem_reverse.mpr hc) hp

theorem mem_of_mem_goTrimSpace {l : List Char} {c : Char}
    (h : c ∈ goTrimSpace l) : c ∈ l :=
  mem_of_mem_dropWhile (mem_of_mem_dropTrailing h)

theorem head?_goTrimSpace {l : List Char} :
    ∀ c ∈ (goTrimSpace l).head?, isGoSpace c = false := by
  intro c hc
  by_cases hne : goTrimSpace l = []
  · rw [hne] at hc
    cases hc
  · rw [goTrimSpace, head?_dropTrailing (by rwa [goTrimSpace] at hne)] at hc
    exact head?_dropWhile c hc

theorem getLast?_goTrimSpace {l : List Char} :
    ∀ c ∈ (goTrimSpace l).getLast?, isGoSpace c = false :=
  getLast?_dropTrailing

theorem goTrimSpace_eq_self {l : List Char}
    (hh : ∀ c ∈ l.head?, isGoSpace c = false)
    (hl : ∀ c ∈ l.getLast?, isGoSpace c = false) : goTrimSpace l = l := by
  rw [goTrimSpace, dropWhile_eq_self hh, dropTrailing_eq_self hl]

theorem goTrimSpace_idem (l : List Char) :
    goTrimSpace (goTrimSpace l) = goTrimSpace l :=
  goTrimSpace_eq_self head?_goTrimSpace getLast?_goTrimSpace

theorem goTrimSpace_of_no_space {l : List Char}
    (h : ∀ c ∈ l, isGoSpace c = false) : goTrimSpace l = l :=
  goTrimSpace_eq_self
    (fun c hc => h c (mem_of_head?_eq hc))
    (fun c hc => h c (mem_of_getLast?_eq hc))

/-! ### `sanitizeUsername` output properties -/

theorem mem_of_mem_trimCutset {l : List Char} {c : Char}
    (h : c ∈ trimCutset l) : c ∈ l :=
  mem_of_mem_dropWhile (mem_of_mem_dropTrailing h)

theorem mem_trimCutset_of_mem {l : List Char} {c : Char}
    (hc : c ∈ l) (hp : isCut c = false) : c ∈ trimCutset l :=
  mem_dropTrailing_of_mem (mem_dropWhile_of_mem hc hp) hp

theorem head?_trimCutset {l : List Char} (h : trimCutset l ≠ []) :
    ∀ c ∈ (trimCutset l).head?, isCut c = false := by
  intro c hc
  rw [trimCutset, head?_dropTrailing (by rwa [trimCutset] at h)] at hc
  exact head?_dropWhile c hc

theorem getLast?_trimCutset {l : List Char} :
    ∀ c ∈ (trimCutset l).getLast?, isCut c = false :=
  getLast?_dropTrailing

theorem trimCutset_eq_self {l : List Char}
    (hh : ∀ c ∈ l.head?, isCut c = false)
    (hl : ∀ c ∈ l.getLast?, isCut c = false) : trimCutset l = l := by
  rw [trimCutset, dropWhile_eq_self hh, dropTrailing_eq_self hl]

theorem mem_dropLeadingAt_of_mem {l : List Char} {c : Char}
    (hc : c ∈ l) (hne : c ≠ '@') : c ∈ dropLeadingAt l := by
  cases l with
  | nil => cases hc
  | cons a rest =>
    simp only [dropLeadingAt]
    split
    · rcases List.mem_cons.mp hc with rfl | h
      · exact absurd (by assumption) hne
      · exact h
    · exact hc

theorem mem_of_mem_dropLeadingAt {l : List Char} {c : Char}
    (hc : c ∈ dropLeadingAt l) : c ∈ l := by
  cases l with
  | nil => cases hc
  | cons a rest =>
    simp only [dropLeadingAt] at hc
    split at hc
    · exact List.mem_cons_of_mem _ hc
    · exact hc

theorem filterMap_keepRune_id {l : List Char}
    (h : ∀ c ∈ l, isUserChar c = true) : l.filterMap keepRune = l := by
  induction l with
  | nil => rfl
  | cons a rest ih =>
    rw [List.filterMap_cons, keepRune_id (h a (List.mem_cons_self _ _))]
    rw [ih fun c hc => h c (List.mem_cons_of_mem _ hc)]

theorem head?_take {l : List Char} {n : Nat} (hn : n ≠ 0) :
    (l.take n).head? = l.head? := by
  cases l with
  | nil => simp
  | cons a rest =>
    cases n with
    | zero => exact absurd rfl hn
    | succ m => simp [List.take_succ_cons]

theorem take_ne_nil_of_ne_nil {l : List Char} (h : l ≠ []) {n : Nat}
    (hn : 0 < n) : l.take n ≠ [] := by
  cases l with
  | nil => exact absurd rfl h
  | cons a rest =>
    cases n with
    | zero => omega
    | succ m => simp [List.take_succ_cons]

theorem sanitizeUsername_chars {x : List Char} :
    ∀ c ∈ sanitizeUsername x, isUserChar c = true := by
  intro c hc
  simp only [sanitizeUsername] at hc
  split at hc
  · cases hc
  · split at hc
    · cases hc
    · have hmem : c ∈ trimCutset (((dropLeadingAt (goTrimSpace x)).filter
          (fun c => decide (c ≠ ' '))).filterMap keepRune) := by
        split at hc
        · exact (List.take_sublist _ _).subset hc
        · exact hc
      have hb := mem_of_mem_trimCutset hmem
      rcases List.mem_filterMap.mp hb with ⟨a, _, hk⟩
      exact keepRune_userChar hk

theorem head?_sanitizeUsername {x : List Char} :
    ∀ c ∈ (sanitizeUsername x).head?, isCut c = false := by
  intro c hc
  simp only [sanitizeUsername] at hc
  split at hc
  · cases hc
  · split at hc
    · cases hc
    · rename_i hnil
      split at hc
      · rw [head?_take (by simp [maxSocialUsernameLength])] at hc
        exact head?_trimCutset hnil c hc
      · exact head?_trimCutset hnil c hc

theorem sanitizeUsername_length (x : List Char) :
    (sanitizeUsername x).length ≤ maxSocialUsernameLength := by
  simp only [sanitizeUsername]
  split
  · simp [maxSocialUsernameLength]
  · split
    · simp [maxSocialUsernameLength]
    · split
      · simp [List.length_take]
      · omega

theorem sanitizeUsername_fixed {l : List Char}
    (hchars : ∀ c ∈ l, isUserChar c = true)
    (hhead : ∀ c ∈ l.head?, isCut c = false)
    (hlast : ∀ c ∈ l.getLast?, isCut c = false)
    (hlen : l.length ≤ maxSocialUsernameLength) :
    sanitizeUsername l = l := by
  rcases eq_or_ne l [] with rfl | hne
  · rfl
  · have h1 : goTrimSpace l = l :=
      goTrimSpace_of_no_space fun c hc => userChar_not_space (hchars c hc)
    have h2 : dropLeadingAt l = l := by
      cases l with
      | nil => rfl
      | cons a rest =>
        simp only [dropLeadingAt]
        rw [if_neg (userChar_ne_at (hchars a (List.mem_cons_self _ _)))]
    have h3 : l.filter (fun c => decide (c ≠ ' ')) = l :=
      List.filter_eq_self.mpr fun a ha => by
        simp [userChar_ne_blank (hchars a ha)]
    have h4 : l.filterMap keepRune = l := filterMap_keepRune_id hchars
    have h5 : trimCutset l = l := trimCutset_eq_self hhead hlast
    simp only [sanitizeUsername, h1, h2, h3, h4, h5]
    rw [if_neg hne, if_neg hne,
      if_neg (by omega : ¬ l.length > maxSocialUsernameLength)]

theorem sanitizeUsername_ne_nil_of_witness {l : List Char} {c : Char}
    (hc : c ∈ l) (hu : isUserChar c = true) (hcut : isCut c = false) :
    sanitizeUsername l ≠ [] := by
  have hc1 : c ∈ goTrimSpace l :=
    mem_dropTrailing_of_mem
      (mem_dropWhile_of_mem hc (userChar_not_space hu)) (userChar_not_space hu)
  have hc2 : c ∈ dropLeadingAt (goTrimSpace l) :=
    mem_dropLeadingAt_of_mem hc1 (userChar_ne_at hu)
  have hc3 : c ∈ (dropLeadingAt (goTrimSpace l)).filter (fun c => decide (c ≠ ' ')) :=
    List.mem_filter.mpr ⟨hc2, by simp [userChar_ne_blank hu]⟩
  have hc4 : c ∈ ((dropLeadingAt (goTrimSpace l)).filter
      (fun c => decide (c ≠ ' '))).filterMap keepRune :=
    List.mem_filterMap.mpr ⟨c, hc3, keepRune_id hu⟩
  have hc5 : c ∈ trimCutset (((dropLeadingAt (goTrimSpace l)).filter
      (fun c => decide (c ≠ ' '))).filterMap keepRune) :=
    mem_trimCutset_of_mem hc4 hcut
  simp only [sanitizeUsername]
  rw [if_neg (List.ne_nil_of_mem hc3), if_neg (List.ne_nil_of_mem hc5)]
  split
  · exact take_ne_nil_of_ne_nil (List.ne_nil_of_mem hc5)
      (by simp [maxSocialUsernameLength])
  · exact List.ne_nil_of_mem hc5

/-! ### `Fields` / `Join` and `sanitizeStatus` properties -/

theorem fieldsAux_ne_nil {l acc : List Char} (h : acc ≠ []) :
    fieldsAux l acc ≠ [] := by
  induction l generalizing acc with
  | nil => simp [fieldsAux, h]
  | cons c rest ih =>
    by_cases hsp : isGoSpace c = true
    · simp only [fieldsAux, hsp, if_true, if_neg h]
      exact List.cons_ne_nil _ _
    · simp only [fieldsAux, hsp, if_false]
      exact ih (List.cons_ne_nil _ _)

theorem fieldsAux_words {l acc : List Char}
    (hacc : ∀ c ∈ acc, isGoSpace c = false) :
    ∀ w ∈ fieldsAux l acc, w ≠ [] ∧ ∀ c ∈ w, isGoSpace c = false := by
  induction l generalizing acc with
  | nil =>
    intro w hw
    by_cases h : acc = []
    · subst h
      simp [fieldsAux] at hw
    · simp only [fieldsAux, if_neg h, List.mem_singleton] at hw
      subst hw
      exact ⟨by simpa using h, fun c hc => hacc c (List.mem_reverse.mp hc)⟩
  | cons c rest ih =>
    intro w hw
    by_cases hsp : isGoSpace c = true
    · by_cases h : acc = []
      · subst h
        simp only [fieldsAux, hsp, if_true, if_pos rfl] at hw
        exact ih (by simp) w hw
      · simp only [fieldsAux, hsp, if_true, if_neg h, List.mem_cons] at hw
        rcases hw with rfl | hw'
        · exact ⟨by simpa using h, fun d hd => hacc d (List.mem_reverse.mp hd)⟩
        · exact ih (by simp) w hw'
    · have hspf : isGoSpace c = false := by simpa using hsp
      simp only [fieldsAux, hspf, if_false] at hw
      refine ih ?_ w hw
      intro d hd
      rcases List.mem_cons.mp hd with rfl | hd'
      · exact hspf
      · exact hacc d hd'

theorem mem_joinSpace {ws : List (List Char)} {c : Char}
    (h : c ∈ joinSpace ws) : (∃ w ∈ ws, c ∈ w) ∨ c = ' ' := by
  induction ws with
  | nil => cases h
  | cons w ws ih =>
    cases ws with
    | nil =>
      simp only [joinSpace] at h
      exact Or.inl ⟨w, List.mem_cons_self _ _, h⟩
    | cons w2 ws' =>
      simp only [joinSpace] at h
      rcases List.mem_append.mp h with hw | hrest
      · exact Or.inl ⟨w, List.mem_cons_self _ _, hw⟩
      · rcases List.mem_cons.mp hrest with rfl | hj
        · exact Or.inr rfl
        · rcases ih hj with ⟨w', hw', hc⟩ | hc
          · exact Or.inl ⟨w', List.mem_cons_of_mem _ hw', hc⟩
          · exact Or.inr hc

theorem joinSpace_ne_nil {w : List Char} {ws : List (List Char)} (h : w ≠ []) :
    joinSpace (w :: ws) ≠ [] := by
  cases ws with
  | nil => exact h
  | cons w2 ws' =>
    simp only [joinSpace]
    intro he
    rcases List.append_eq_nil.mp he with ⟨h1, _⟩
    exact h h1

theorem head?_joinSpace {w : List Char} {ws : List (List Char)} (h : w ≠ []) :
    (joinSpace (w :: ws)).head? = w.head? := by
  cases ws with
  | nil => rfl
  | cons w2 ws' =>
    simp only [joinSpace]
    cases w with
    | nil => exact absurd rfl h
    | cons a t => rfl

theorem getLast?_cons_of_ne_nil {a : Char} {t : List Char} (h : t ≠ []) :
    (a :: t).getLast? = t.getLast? := by
  cases t with
  | nil => exact absurd rfl h
  | cons b t' => rw [List.getLast?_cons_cons]

theorem getLast?_joinSpace_not_space {ws : List (List Char)}
    (hws : ∀ w ∈ ws, w ≠ [] ∧ ∀ c ∈ w, isGoSpace c = false) :
    ∀ c ∈ (joinSpace ws).getLast?, isGoSpace c = false := by
  induction ws with
  | nil => simp [joinSpace]
  | cons w ws ih =>
    intro c hc
    cases ws with
    | nil =>
      simp only [joinSpace] at hc
      exact (hws w (List.mem_cons_self _ _)).2 c (mem_of_getLast?_eq hc)
    | cons w2 ws' =>
      simp only [joinSpace] at hc
      have hj : joinSpace (w2 :: ws') ≠ [] :=
        joinSpace_ne_nil (hws w2 (by simp)).1
      rw [List.getLast?_append_cons, getLast?_cons_of_ne_nil hj] at hc
      exact ih (fun w' hw' => hws w' (List.mem_cons_of_mem _ hw')) c hc

theorem noDoubleSpace_tail {a : Char} {t : List Char}
    (h : noDoubleSpace (a :: t) = true) : noDoubleSpace t = true := by
  cases t with
  | nil => rfl
  | cons b t' =>
    simp only [noDoubleSpace, Bool.and_eq_true] at h
    exact h.2

theorem noDoubleSpace_cons {a : Char} {l : List Char}
    (hl : noDoubleSpace l = true)
    (h : ∀ c ∈ l.head?, (isGoSpace a && isGoSpace c) = false) :
    noDoubleSpace (a :: l) = true := by
  cases l with
  | nil => rfl
  | cons b t =>
    simp only [noDoubleSpace, Bool.and_eq_true]
    exact ⟨by simp [h b rfl], hl⟩

theorem noDoubleSpace_of_no_space {l : List Char}
    (h : ∀ c ∈ l, isGoSpace c = false) : noDoubleSpace l = true := by
  induction l with
  | nil => rfl
  | cons a t ih =>
    apply noDoubleSpace_cons (ih fun c hc => h c (List.mem_cons_of_mem _ hc))
    intro c hc
    simp [h a (List.mem_cons_self _ _)]

theorem noDoubleSpace_append {w m : List Char}
    (hw : ∀ c ∈ w, isGoSpace c = false) (hm : noDoubleSpace m = true) :
    noDoubleSpace (w ++ m) = true := by
  induction w with
  | nil => simpa using hm
  | cons a w' ih =>
    rw [List.cons_append]
    apply noDoubleSpace_cons (ih fun c hc => hw c (List.mem_cons_of_mem _ hc))
    intro c hc
    simp [hw a (List.mem_cons_self _ _)]

theorem noDoubleSpace_joinSpace {ws : List (List Char)}
    (hws : ∀ w ∈ ws, w ≠ [] ∧ ∀ c ∈ w, isGoSpace c = false) :
    noDoubleSpace (joinSpace ws) = true := by
  induction ws with
  | nil => rfl
  | cons w ws ih =>
    cases ws with
    | nil =>
      simp only [joinSpace]
      exact noDoubleSpace_of_no_space (hws w (by simp)).2
    | cons w2 ws' =>
      simp only [joinSpace]
      have hgood := hws w (List.mem_cons_self _ _)
      have htail : ∀ w' ∈ w2 :: ws', w' ≠ [] ∧ ∀ c ∈ w', isGoSpace c = false :=
        fun w' hw' => hws w' (List.mem_cons_of_mem _ hw')
      apply noDoubleSpace_append hgood.2
      apply noDoubleSpace_cons (ih htail)
      intro c hc
      rw [head?_joinSpace (htail w2 (by simp)).1] at hc
      simp [(htail w2 (by simp)).2 c (mem_of_head?_eq hc)]

theorem noDoubleSpace_take {l : List Char} (h : noDoubleSpace l = true) :
    ∀ n, noDoubleSpace (l.take n) = true := by
  induction l with
  | nil => simp [h]
  | cons a t ih =>
    intro n
    cases n with
    | zero => rfl
    | succ m =>
      rw [List.take_succ_cons]
      apply noDoubleSpace_cons (ih (noDoubleSpace_tail h) m)
      intro c hc
      cases m with
      | zero => simp at hc
      | succ k =>
        rw [head?_take (by omega)] at hc
        cases t with
        | nil => cases hc
        | cons b t' =>
          simp only [List.head?_cons, Option.mem_def, Option.some.injEq] at hc
          subst hc
          simp only [noDoubleSpace, Bool.and_eq_true] at h
          have h1 := h.1
          cases hab : (isGoSpace a && isGoSpace b) with
          | false => rfl
          | true => rw [hab] at h1; cases h1

theorem noDoubleSpace_dropWhile {p : Char → Bool} {l : List Char}
    (h : noDoubleSpace l = true) : noDoubleSpace (l.dropWhile p) = true := by
  induction l with
  | nil => rfl
  | cons a t ih =>
    rw [List.dropWhile_cons]
    split
    · exact ih (noDoubleSpace_tail h)
    · exact h

theorem noDoubleSpace_of_append_left {l₁ l₂ : List Char}
    (h : noDoubleSpace (l₁ ++ l₂) = true) : noDoubleSpace l₁ = true := by
  induction l₁ with
  | nil => rfl
  | cons a t ih =>
    cases t with
    | nil => rfl
    | cons b t' =>
      simp only [List.cons_append] at h
      simp only [noDoubleSpace, Bool.and_eq_true] at h ⊢
      exact ⟨h.1, ih (by simpa using h.2)⟩

theorem dropTrailing_append_eq {p : Char → Bool} (l : List Char) :
    dropTrailing p l ++ (l.reverse.takeWhile p).reverse = l := by
  rw [dropTrailing, ← List.reverse_append, List.takeWhile_append_dropWhile,
    List.reverse_reverse]

theorem noDoubleSpace_dropTrailing {p : Char → Bool} {l : List Char}
    (h : noDoubleSpace l = true) : noDoubleSpace (dropTrailing p l) = true :=
  @noDoubleSpace_of_append_left (dropTrailing p l)
    ((l.reverse.takeWhile p).reverse)
    (by rw [dropTrailing_append_eq]; exact h)

theorem noDoubleSpace_goTrimSpace {l : List Char}
    (h : noDoubleSpace l = true) : noDoubleSpace (goTrimSpace l) = true :=
  noDoubleSpace_dropTrailing (noDoubleSpace_dropWhile h)

theorem length_dropTrailing_le (p : Char → Bool) (l : List Char) :
    (dropTrailing p l).length ≤ l.length := by
  rw [dropTrailing, List.length_reverse]
  calc (l.reverse.dropWhile p).length ≤ l.reverse.length :=
        (List.dropWhile_sublist _).length_le
    _ = l.length := List.length_reverse _

theorem length_goTrimSpace_le (l : List Char) :
    (goTrimSpace l).length ≤ l.length :=
  le_trans (length_dropTrailing_le _ _) (List.dropWhile_sublist _).length_le

theorem mem_of_mem_fieldsAux {l acc w : List Char} {c : Char}
    (hw : w ∈ fieldsAux l acc) (hc : c ∈ w) : c ∈ l ∨ c ∈ acc := by
  induction l generalizing acc with
  | nil =>
    by_cases h : acc = []
    · subst h
      simp [fieldsAux] at hw
    · simp only [fieldsAux, if_neg h, List.mem_singleton] at hw
      subst hw
      exact Or.inr (List.mem_reverse.mp hc)
  | cons a rest ih =>
    by_cases hsp : isGoSpace a = true
    · by_cases h : acc = []
      · subst h
        simp only [fieldsAux, hsp, if_true, if_pos rfl] at hw
        rcases ih hw with h1 | h1
        · exact Or.inl (List.mem_cons_of_mem _ h1)
        · cases h1
      · simp only [fieldsAux, hsp, if_true, if_neg h, List.mem_cons] at hw
        rcases hw with rfl | hw'
        · exact Or.inr (List.mem_reverse.mp hc)
        · rcases ih hw' with h1 | h1
          · exact Or.inl (List.mem_cons_of_mem _ h1)
          · cases h1
    · have hspf : isGoSpace a = false := by simpa using hsp
      simp only [fieldsAux, hspf, if_false] at hw
      rcases ih hw with h1 | h1
      · exact Or.inl (List.mem_cons_of_mem _ h1)
      · rcases List.mem_cons.mp h1 with rfl | h2
        · exact Or.inl (List.mem_cons_self _ _)
        · exact Or.inr h2

theorem collapse_props (t1 : List Char) :
    (∀ c ∈ joinSpace (goFields t1), isGoSpace c = true → c = ' ') ∧
    noDoubleSpace (joinSpace (goFields t1)) = true ∧
    (∀ c ∈ joinSpace (goFields t1), c ∈ t1 ∨ c = ' ') := by
  have hwords : ∀ w ∈ goFields t1, w ≠ [] ∧ ∀ c ∈ w, isGoSpace c = false :=
    fieldsAux_words (by simp)
  refine ⟨?_, noDoubleSpace_joinSpace hwords, ?_⟩
  · intro c hc hspc
    rcases mem_joinSpace hc with ⟨w, hw, hcw⟩ | h
    · exact absurd hspc (by simp [(hwords w hw).2 c hcw])
    · exact h
  · intro c hc
    rcases mem_joinSpace hc with ⟨w, hw, hcw⟩ | h
    · rcases mem_of_mem_fieldsAux hw hcw with h1 | h1
      · exact Or.inl h1
      · cases h1
    · exact Or.inr h

theorem sanitizeStatus_props (x : List Char) :
    (sanitizeStatus x).length ≤ 140 ∧
    (∀ c ∈ sanitizeStatus x, c ≠ '\n') ∧
    (∀ c ∈ sanitizeStatus x, isGoSpace c = true → c = ' ') ∧
    noDoubleSpace (sanitizeStatus x) = true ∧
    (∀ c ∈ (sanitizeStatus x).head?, isGoSpace c = false) ∧
    (∀ c ∈ (sanitizeStatus x).getLast?, isGoSpace c = false) := by
  obtain ⟨hsp, hnd, hsub⟩ :=
    collapse_props (x.map (fun c => if c = '\n' then ' ' else c))
  have hmemj : ∀ c ∈ sanitizeStatus x,
      c ∈ joinSpace (goFields (x.map (fun c => if c = '\n' then ' ' else c))) := by
    intro c hc
    simp only [sanitizeStatus] at hc
    split at hc
    · exact mem_of_mem_goTrimSpace
        ((List.take_sublist _ _).subset (mem_of_mem_goTrimSpace hc))
    · exact mem_of_mem_goTrimSpace hc
  refine ⟨?_, ?_, ?_, ?_, ?_, ?_⟩
  · simp only [sanitizeStatus]
    split
    · exact le_trans (length_goTrimSpace_le _)
        (by rw [List.length_take]; exact Nat.min_le_left _ _)
    · omega
  · intro c hc
    rcases hsub c (hmemj c hc) with hct1 | rfl
    · rcases List.mem_map.mp hct1 with ⟨a, _, rfl⟩
      by_cases ha : a = '\n'
      · simp [ha]
      · simp [ha]
    · decide
  · intro c hc
    exact hsp c (hmemj c hc)
  · simp only [sanitizeStatus]
    split
    · exact noDoubleSpace_goTrimSpace (noDoubleSpace_take
        (noDoubleSpace_goTrimSpace hnd) 140)
    · exact noDoubleSpace_goTrimSpace hnd
  · simp only [sanitizeStatus]
    split
    · exact head?_goTrimSpace
    · exact head?_goTrimSpace
  · simp only [sanitizeStatus]
    split
    · exact getLast?_goTrimSpace
    · exact getLast?_goTrimSpace

theorem map_newline_id {y : List Char} (h : ∀ c ∈ y, c ≠ '\n') :
    y.map (fun c => if c = '\n' then ' ' else c) = y := by
  induction y with
  | nil => rfl
  | cons a t ih =>
    rw [List.map_cons, if_neg (h a (List.mem_cons_self _ _)),
      ih fun c hc => h c (List.mem_cons_of_mem _ hc)]

theorem joinSpace_fieldsAux : ∀ y acc : List Char,
    (∀ c ∈ y, isGoSpace c = true → c = ' ') →
    noDoubleSpace y = true →
    (∀ c ∈ y.getLast?, isGoSpace c = false) →
    (∀ c ∈ acc, isGoSpace c = false) →
    (acc = [] → ∀ c ∈ y.head?, isGoSpace c = false) →
    joinSpace (fieldsAux y acc) = acc.reverse ++ y := by
  intro y
  induction y with
  | nil =>
    intro acc _ _ _ _ _
    by_cases h : acc = []
    · subst h
      rfl
    · simp [fieldsAux, if_neg h, joinSpace]
  | cons c rest ih =>
    intro acc hsp hnd hlast hacc hhead
    by_cases hsp_c : isGoSpace c = true
    · have hc' : c = ' ' := hsp c (List.mem_cons_self _ _) hsp_c
      have haccne : acc ≠ [] := by
        intro he
        have hf := hhead he c (by simp)
        rw [hf] at hsp_c
        cases hsp_c
      have hrestne : rest ≠ [] := by
        intro he
        subst he
        have hf := hlast c (by simp)
        rw [hf] at hsp_c
        cases hsp_c
      obtain ⟨d, rest', rfl⟩ : ∃ d r', rest = d :: r' := by
        cases rest with
        | nil => exact absurd rfl hrestne
        | cons d r' => exact ⟨d, r', rfl⟩
      have hd_not : isGoSpace d = false := by
        simp only [noDoubleSpace, Bool.and_eq_true] at hnd
        have h1 := hnd.1
        simp [hsp_c] at h1
        exact h1
      have hIH := ih []
        (fun a ha hs => hsp a (List.mem_cons_of_mem _ ha) hs)
        (noDoubleSpace_tail hnd)
        (fun e he => hlast e (by rw [List.getLast?_cons_cons]; exact he))
        (by simp)
        (fun _ => by
          intro e he
          simp only [List.head?_cons, Option.mem_def, Option.some.injEq] at he
          exact he ▸ hd_not)
      have hFne : fieldsAux (d :: rest') [] ≠ [] := by
        simp only [fieldsAux, hd_not, if_false]
        exact fieldsAux_ne_nil (List.cons_ne_nil _ _)
      obtain ⟨f, fs, hffs⟩ : ∃ f fs, fieldsAux (d :: rest') [] = f :: fs := by
        cases hF2 : fieldsAux (d :: rest') [] with
        | nil => exact absurd hF2 hFne
        | cons f fs => exact ⟨f, fs, rfl⟩
      calc joinSpace (fieldsAux (c :: d :: rest') acc)
          = joinSpace (acc.reverse :: fieldsAux (d :: rest') []) := by
            simp [fieldsAux, hsp_c, haccne]
        _ = acc.reverse ++ ' ' :: joinSpace (fieldsAux (d :: rest') []) := by
            rw [hffs]
            rfl
        _ = acc.reverse ++ ' ' :: (d :: rest') := by
            rw [hIH]
            simp
        _ = acc.reverse ++ c :: d :: rest' := by rw [hc']
    · have hspf : isGoSpace c = false := by simpa using hsp_c
      have hIH := ih (c :: acc)
        (fun a ha hs => hsp a (List.mem_cons_of_mem _ ha) hs)
        (noDoubleSpace_tail hnd)
        (by
          cases rest with
          | nil => simp
          | cons d r' =>
            exact fun e he => hlast e (by rw [List.getLast?_cons_cons]; exact he))
        (by
          intro e he
          rcases List.mem_cons.mp he with rfl | he'
          · exact hspf
          · exact hacc e he')
        (fun h => absurd h (List.cons_ne_nil _ _))
      calc joinSpace (fieldsAux (c :: rest) acc)
          = joinSpace (fieldsAux rest (c :: acc)) := by simp [fieldsAux, hspf]
        _ = (c :: acc).reverse ++ rest := hIH
        _ = acc.reverse ++ c :: rest := by simp

theorem sanitizeStatus_fixed {y : List Char}
    (hsp : ∀ c ∈ y, isGoSpace c = true → c = ' ')
    (hnd : noDoubleSpace y = true)
    (hh : ∀ c ∈ y.head?, isGoSpace c = false)
    (hl : ∀ c ∈ y.getLast?, isGoSpace c = false)
    (hlen : y.length ≤ 140) :
    sanitizeStatus y = y := by
  have hnl : ∀ c ∈ y, c ≠ '\n' := by
    intro c hc he
    subst he
    exact absurd (hsp _ hc (by decide)) (by decide)
  have h1 : y.map (fun c => if c = '\n' then ' ' else c) = y := map_newline_id hnl
  have h2 : joinSpace (goFields y) = y := by
    have hr := joinSpace_fieldsAux y [] hsp hnd hl (by simp) (fun _ => hh)
    simpa [goFields] using hr
  have h3 : goTrimSpace y = y := goTrimSpace_eq_self hh hl
  simp only [sanitizeStatus, h1, h2, h3]
  rw [if_neg (by omega)]

/-! ### Username fallback totality -/

theorem sanitizeUsername_head_witness {l : List Char} (h : sanitizeUsername l ≠ []) :
    ∃ c ∈ sanitizeUsername l, isUserChar c = true ∧ isCut c = false := by
  cases hu : sanitizeUsername l with
  | nil => exact absurd hu h
  | cons a t =>
    refine ⟨a, List.mem_cons_self _ _, ?_, ?_⟩
    · exact sanitizeUsername_chars (x := l) a
        (by rw [hu]; exact List.mem_cons_self _ _)
    · exact head?_sanitizeUsername (x := l) a (by rw [hu]; rfl)

theorem fallbackSocialUsername_ne_nil (name idHex nowStr seed : List Char) :
    fallbackSocialUsername name idHex nowStr seed ≠ [] := by
  simp only [fallbackSocialUsername]
  generalize (if (if idHex = [] then nowStr else idHex).length > 4
      then (if idHex = [] then nowStr else idHex).take 4
      else (if idHex = [] then nowStr else idHex)) = sfx
  have hfinish : ∀ b : List Char,
      (∃ c ∈ b, isUserChar c = true ∧ isCut c = false) →
      (if sanitizeUsername (b ++ "_".data ++ sfx) = []
        then sanitizeUsername ("buddy_".data ++ sfx)
        else sanitizeUsername (b ++ "_".data ++ sfx)) ≠ [] := by
    rintro b ⟨c, hc, hu2, hcut⟩
    have hcand : sanitizeUsername (b ++ "_".data ++ sfx) ≠ [] :=
      sanitizeUsername_ne_nil_of_witness
        (List.mem_append_left sfx (List.mem_append_left "_".data hc)) hu2 hcut
    rw [if_neg hcand]
    exact hcand
  by_cases h0 : sanitizeUsername seed = []
  · rw [if_pos h0]
    by_cases h1 : sanitizeUsername name = []
    · rw [if_pos h1]
      exact hfinish _ ⟨'a', by decide, by decide, by decide⟩
    · rw [if_neg h1]
      exact hfinish _ (sanitizeUsername_head_witness h1)
  · rw [if_neg h0, if_neg h0]
    exact hfinish _ (sanitizeUsername_head_witness h0)

theorem generateSocialUsernameCore_ok (name idHex nowStr resp : List Char) :
    ∃ u, generateSocialUsernameCore name idHex nowStr resp = .ok u ∧ u ≠ [] := by
  have hfb : ∀ seed, fallbackSocialUsername name idHex nowStr seed ≠ [] :=
    fun seed => fallbackSocialUsername_ne_nil name idHex nowStr seed
  simp only [generateSocialUsernameCore]
  by_cases h0 : sanitizeUsername resp = []
  · rw [if_pos h0]
    by_cases h1 : sanitizeUsername name ≠ [] ∧
        fallbackSocialUsername name idHex nowStr name = sanitizeUsername name
    · rw [if_pos h1, if_neg (hfb _)]
      exact ⟨_, rfl, hfb _⟩
    · rw [if_neg h1, if_neg (hfb _)]
      exact ⟨_, rfl, hfb _⟩
  · rw [if_neg h0]
    by_cases h1 : sanitizeUsername name ≠ [] ∧
        sanitizeUsername resp = sanitizeUsername name
    · rw [if_pos h1, if_neg (hfb _)]
      exact ⟨_, rfl, hfb _⟩
    · rw [if_neg h1, if_neg h0]
      exact ⟨_, rfl, h0⟩

/-! ### Document-store operation lemmas -/

theorem findAgent?_append_fresh {l : List AgentDoc} {aid : List Char}
    {a : AgentDoc} (hfresh : ∀ b ∈ l, b.id ≠ aid) (ha : a.id = aid) :
    findAgent? (l ++ [a]) aid = some a := by
  induction l with
  | nil =>
    simp only [List.nil_append, findAgent?]
    rw [if_pos ha]
  | cons b t ih =>
    simp only [List.cons_append, findAgent?]
    rw [if_neg (hfresh b (List.mem_cons_self _ _))]
    exact ih fun b' hb' => hfresh b' (List.mem_cons_of_mem _ hb')

theorem deleteFirstAgent_append_fresh {l : List AgentDoc} {aid : List Char}
    {a : AgentDoc} (hfresh : ∀ b ∈ l, b.id ≠ aid) (ha : a.id = aid) :
    deleteFirstAgent (l ++ [a]) aid = l := by
  induction l with
  | nil =>
    simp only [List.nil_append, deleteFirstAgent]
    rw [if_pos ha]
  | cons b t ih =>
    simp only [List.cons_append, deleteFirstAgent]
    rw [if_neg (hfresh b (List.mem_cons_self _ _))]
    exact congrArg (List.cons b)
      (ih fun b' hb' => hfresh b' (List.mem_cons_of_mem _ hb'))

theorem updateFirstAgentBase_append_fresh {l : List AgentDoc} {aid uri : List Char}
    {a : AgentDoc} (hfresh : ∀ b ∈ l, b.id ≠ aid) (ha : a.id = aid) :
    updateFirstAgentBase (l ++ [a]) aid uri =
      l ++ [{ a with base_appearance_referance_url := uri }] := by
  induction l with
  | nil =>
    simp only [List.nil_append, updateFirstAgentBase]
    rw [if_pos ha]
  | cons b t ih =>
    simp only [List.cons_append, updateFirstAgentBase]
    rw [if_neg (hfresh b (List.mem_cons_self _ _))]
    exact congrArg (List.cons b)
      (ih fun b' hb' => hfresh b' (List.mem_cons_of_mem _ hb'))

theorem findProfile?_append_fresh {l : List ProfileDoc} {aid : List Char}
    {p : ProfileDoc} (hfresh : ∀ q ∈ l, q.agent_id ≠ aid) (hp : p.agent_id = aid) :
    findProfile? (l ++ [p]) aid = some p := by
  induction l with
  | nil =>
    simp only [List.nil_append, findProfile?]
    rw [if_pos hp]
  | cons q t ih =>
    simp only [List.cons_append, findProfile?]
    rw [if_neg (hfresh q (List.mem_cons_self _ _))]
    exact ih fun q' hq' => hfresh q' (List.mem_cons_of_mem _ hq')

theorem setUpdatedFirst_append_fresh {l : List ProfileDoc} {aid : List Char}
    {p : ProfileDoc} {now : Nat}
    (hfresh : ∀ q ∈ l, q.agent_id ≠ aid) (hp : p.agent_id = aid) :
    setUpdatedFirst (l ++ [p]) aid now = l ++ [{ p with updated_at := now }] := by
  induction l with
  | nil =>
    simp only [List.nil_append, setUpdatedFirst]
    rw [if_pos hp]
  | cons q t ih =>
    simp only [List.cons_append, setUpdatedFirst]
    rw [if_neg (hfresh q (List.mem_cons_self _ _))]
    exact congrArg (List.cons q)
      (ih fun q' hq' => hfresh q' (List.mem_cons_of_mem _ hq'))

theorem countProfiles_append (l l' : List ProfileDoc) (aid : List Char) :
    countProfiles (l ++ l') aid = countProfiles l aid + countProfiles l' aid := by
  induction l with
  | nil => simp [countProfiles]
  | cons q t ih =>
    show (if q.agent_id = aid then 1 else 0) + countProfiles (t ++ l') aid =
      ((if q.agent_id = aid then 1 else 0) + countProfiles t aid) +
        countProfiles l' aid
    rw [ih]
    omega

theorem countProfiles_eq_zero {l : List ProfileDoc} {aid : List Char}
    (h : ∀ p ∈ l, p.agent_id ≠ aid) : countProfiles l aid = 0 := by
  induction l with
  | nil => rfl
  | cons q t ih =>
    simp only [countProfiles]
    rw [if_neg (h q (List.mem_cons_self _ _))]
    rw [ih fun p hp => h p (List.mem_cons_of_mem _ hp)]

theorem enrichFirstProfile_no_match {l : List ProfileDoc} {aid u st url : List Char}
    {now : Nat} (h : ∀ p ∈ l, p.agent_id ≠ aid) :
    enrichFirstProfile l aid u st url now = (l, 0) := by
  induction l with
  | nil => rfl
  | cons q t ih =>
    simp only [enrichFirstProfile]
    rw [if_neg (h q (List.mem_cons_self _ _))]
    rw [ih fun p hp => h p (List.mem_cons_of_mem _ hp)]

theorem any_agentId_false {ps : List ProfileDoc} {aid : List Char}
    (h : ∀ p ∈ ps, p.agent_id ≠ aid) :
    (ps.any fun p => decide (p.agent_id = aid)) = false := by
  rw [List.any_eq_false]
  intro p hp
  simpa using h p hp

theorem any_agentId_true {ps : List ProfileDoc} {aid : List Char} {p : ProfileDoc}
    (hp : p ∈ ps) (he : p.agent_id = aid) :
    (ps.any fun p => decide (p.agent_id = aid)) = true :=
  List.any_eq_true.mpr ⟨p, hp, by simpa using he⟩

/-! ### Claim theorems -/

/-- C6 counterexample: `sanitizeUsername` is not idempotent.  On the 21-rune
input `aaaaaaaaaaaaaaaaaaa.b` the first pass truncates to 20 runes after the
`Trim "._"` step, producing a value ending in `.`, which a second pass trims
again. -/
theorem sanitizeUsername_not_idempotent :
    sanitizeUsername (sanitizeUsername "aaaaaaaaaaaaaaaaaaa.b".data) ≠
      sanitizeUsername "aaaaaaaaaaaaaaaaaaa.b".data := by decide

/-- C6 (amended): the username sanitizer is idempotent on every input whose
sanitized value does not end in `.` or `_` (the only escape is the length
truncation exposing a trailing cutset character). -/
theorem sanitizeUsername_idem_of_no_trailing_cut (x : List Char)
    (h : (sanitizeUsername x).getLast? ≠ some '.' ∧
      (sanitizeUsername x).getLast? ≠ some '_') :
    sanitizeUsername (sanitizeUsername x) = sanitizeUsername x := by
  have hlast : ∀ c ∈ (sanitizeUsername x).getLast?, isCut c = false := by
    intro c hc
    by_cases hdot : c = '.'
    · subst hdot
      exact absurd hc h.1
    · by_cases hus : c = '_'
      · subst hus
        exact absurd hc h.2
      · simp [isCut, hdot, hus]
  exact sanitizeUsername_fixed sanitizeUsername_chars head?_sanitizeUsername
    hlast (sanitizeUsername_length x)

/-- C6 amended-claim witness at a concrete input. -/
theorem sanitizeUsername_idem_witness :
    sanitizeUsername (sanitizeUsername "  @Mira Lane!  ".data) =
      sanitizeUsername "  @Mira Lane!  ".data :=
  sanitizeUsername_idem_of_no_trailing_cut "  @Mira Lane!  ".data (by decide)

/-- C7: for every input, the status sanitizer returns at most 140 characters,
contains no newline, every whitespace character in it is a single blank with
no two adjacent, and there is no leading or trailing whitespace. -/
theorem sanitizeStatus_spec (x : List Char) :
    (sanitizeStatus x).length ≤ 140 ∧
    (∀ c ∈ sanitizeStatus x, c ≠ '\n') ∧
    (∀ c ∈ sanitizeStatus x, isGoSpace c = true → c = ' ') ∧
    noDoubleSpace (sanitizeStatus x) = true ∧
    (∀ c ∈ (sanitizeStatus x).head?, isGoSpace c = false) ∧
    (∀ c ∈ (sanitizeStatus x).getLast?, isGoSpace c = false) :=
  sanitizeStatus_props x

/-- C9: the status sanitizer is idempotent. -/
theorem sanitizeStatus_idem (x : List Char) :
    sanitizeStatus (sanitizeStatus x) = sanitizeStatus x := by
  obtain ⟨hlen, _, hsp, hnd, hh, hl⟩ := sanitizeStatus_props x
  exact sanitizeStatus_fixed hsp hnd hh hl hlen

/-- C8 counterexample: the chat dispatcher does not concatenate the stored
system prompt verbatim — it trims it first, so a stored prompt with
leading/trailing whitespace violates the claim as stated. -/
theorem buildChatPrompt_not_verbatim :
    ¬ (buildChatPrompt " a".data "hi".data =
        " a".data ++ chatSeparator ++ "hi".data) := by decide

/-- C8 (amended): for every stored system prompt and user prompt that carry
no leading or trailing whitespace (the forms the orchestrator stores and the
dispatcher passes), the combined prompt is the system prompt, the fixed
separator, then the user prompt; with an empty system prompt the user prompt
is passed unmodified. -/
theorem buildChatPrompt_spec (s u : List Char)
    (hs : goTrimSpace s = s) (hu : goTrimSpace u = u) :
    (s ≠ [] → buildChatPrompt s u = s ++ chatSeparator ++ u) ∧
    (s = [] → buildChatPrompt s u = u) := by
  constructor
  · intro hne
    simp only [buildChatPrompt, hs, hu]
    rw [if_neg hne]
  · intro he
    subst he
    simp [buildChatPrompt, hs, hu]

/-- C8 amended-claim witness at concrete prompts. -/
theorem buildChatPrompt_spec_witness :
    ("sys".data ≠ [] → buildChatPrompt "sys".data "hi".data =
      "sys".data ++ chatSeparator ++ "hi".data) ∧
    ("sys".data = [] → buildChatPrompt "sys".data "hi".data = "hi".data) :=
  buildChatPrompt_spec "sys".data "hi".data (by decide) (by decide)

/-- C10: `fallbackSocialUsername` always returns a non-empty string, and
therefore `generateSocialUsername`'s final empty-response error branch is
unreachable: whenever the text-generation call succeeds the function returns
`ok` with a non-empty username. -/
theorem fallback_username_nonempty (name idHex nowStr seed resp : List Char) :
    fallbackSocialUsername name idHex nowStr seed ≠ [] ∧
    ∃ u, generateSocialUsernameCore name idHex nowStr resp = Except.ok u ∧
      u ≠ [] :=
  ⟨fallbackSocialUsername_ne_nil name idHex nowStr seed,
    generateSocialUsernameCore_ok name idHex nowStr resp⟩

/-- C3: if the text-generation call for the appearance description fails,
`CreateAgent` returns the upstream error (HTTP 502) with the store
unchanged, so no Agent and no SocialProfile document for the fresh key
exists afterwards. -/
theorem createAgent_textgen_failure (o : Oracle) (s : Store)
    (nm pers gen newId : List Char) (now : Nat)
    (hn : goTrimSpace nm ≠ []) (hp : goTrimSpace pers ≠ [])
    (hg : goTrimSpace gen ≠ [])
    (happ : o.appearanceResp = .error ())
    (hfreshA : ∀ a ∈ s.agents, a.id ≠ newId)
    (hfreshP : ∀ q ∈ s.profiles, q.agent_id ≠ newId) :
    createAgent o s nm pers gen newId now = (s, .failed 502) ∧
    (∀ a ∈ (createAgent o s nm pers gen newId now).1.agents, a.id ≠ newId) ∧
    (∀ q ∈ (createAgent o s nm pers gen newId now).1.profiles,
      q.agent_id ≠ newId) := by
  have hval : ¬ (goTrimSpace nm = [] ∨ goTrimSpace pers = [] ∨
      goTrimSpace gen = []) := by
    push_neg
    exact ⟨hn, hp, hg⟩
  have hmain : createAgent o s nm pers gen newId now = (s, .failed 502) := by
    simp [createAgent, hval, happ]
  exact ⟨hmain, by rw [hmain]; exact hfreshA, by rw [hmain]; exact hfreshP⟩

/-- C3 witness: a concrete run whose appearance text-generation call fails
leaves the empty store empty. -/
theorem createAgent_textgen_failure_witness :
    createAgent { sampleOracleOk with appearanceResp := .error () }
      { agents := [], profiles := [] } "Mira".data "playful".data
      "female".data "a1b2".data 7 =
      ({ agents := [], profiles := [] }, .failed 502) ∧
    (∀ a ∈ (createAgent { sampleOracleOk with appearanceResp := .error () }
      { agents := [], profiles := [] } "Mira".data "playful".data
      "female".data "a1b2".data 7).1.agents, a.id ≠ "a1b2".data) ∧
    (∀ q ∈ (createAgent { sampleOracleOk with appearanceResp := .error () }
      { agents := [], profiles := [] } "Mira".data "playful".data
      "female".data "a1b2".data 7).1.profiles, q.agent_id ≠ "a1b2".data) :=
  createAgent_textgen_failure _ _ _ _ _ _ _ (by decide) (by decide) (by decide)
    rfl (by simp) (by simp)

/-- C1: after a successful Agent insert, failure of the image-generation
call, the object-storage upload, or the portrait-URI update makes
`CreateAgent` delete the freshly inserted Agent document (compensation) and
return the upstream error (HTTP 502): the store is back to its initial
state, so the Agent document no longer exists. -/
theorem createAgent_compensates (o : Oracle) (s : Store)
    (nm pers gen newId d : List Char) (now : Nat)
    (hn : goTrimSpace nm ≠ []) (hp : goTrimSpace pers ≠ [])
    (hg : goTrimSpace gen ≠ [])
    (happ : o.appearanceResp = .ok d)
    (hins : o.insertOk = true)
    (hfail : o.imageResp = .error () ∨ o.uploadResp = .error () ∨
      o.portraitUpdateOk = false)
    (hdel : o.deleteOk = true)
    (hfresh : ∀ a ∈ s.agents, a.id ≠ newId) :
    createAgent o s nm pers gen newId now = (s, .failed 502) := by
  have hval : ¬ (goTrimSpace nm = [] ∨ goTrimSpace pers = [] ∨
      goTrimSpace gen = []) := by
    push_neg
    exact ⟨hn, hp, hg⟩
  have hfind : findAgent? (s.agents ++ [newAgentDoc newId (goTrimSpace nm)
      (goTrimSpace pers) (goTrimSpace gen)
      (buildSystemPrompt (goTrimSpace nm) (goTrimSpace pers) (goTrimSpace gen))
      (goTrimSpace d) now]) newId =
      some (newAgentDoc newId (goTrimSpace nm)
      (goTrimSpace pers) (goTrimSpace gen)
      (buildSystemPrompt (goTrimSpace nm) (goTrimSpace pers) (goTrimSpace gen))
      (goTrimSpace d) now) := findAgent?_append_fresh hfresh rfl
  have hdelete : deleteFirstAgent (s.agents ++ [newAgentDoc newId
      (goTrimSpace nm) (goTrimSpace pers) (goTrimSpace gen)
      (buildSystemPrompt (goTrimSpace nm) (goTrimSpace pers) (goTrimSpace gen))
      (goTrimSpace d) now]) newId = s.agents :=
    deleteFirstAgent_append_fresh hfresh rfl
  rcases hfail with himg | hupl | hpu
  · simp [createAgent, hval, happ, hins, himg, hdel, hfind, hdelete]
  · cases himg2 : o.imageResp with
    | error e =>
      simp [createAgent, hval, happ, hins, himg2, hdel, hfind, hdelete]
    | ok im =>
      simp [createAgent, hval, happ, hins, himg2, hupl, hdel, hfind, hdelete]
  · cases himg2 : o.imageResp with
    | error e =>
      simp [createAgent, hval, happ, hins, himg2, hdel, hfind, hdelete]
    | ok im =>
      cases hupl2 : o.uploadResp with
      | error e =>
        simp [createAgent, hval, happ, hins, himg2, hupl2, hdel, hfind,
          hdelete]
      | ok uri =>
        simp [createAgent, hval, happ, hins, himg2, hupl2, hpu, hdel, hfind,
          hdelete]

/-- C1 witness: a concrete run with a failing image-generation call restores
the empty store and reports the upstream error. -/
theorem createAgent_compensates_witness :
    createAgent { sampleOracleOk with imageResp := .error () }
      { agents := [], profiles := [] } "Mira".data "playful".data
      "female".data "a1b2".data 7 =
      ({ agents := [], profiles := [] }, .failed 502) :=
  createAgent_compensates _ _ _ _ _ _ _ _ (by decide) (by decide) (by decide)
    rfl rfl (Or.inl rfl) rfl (by simp)

/-- C4 counterexample: the placeholder SocialProfile created by a fully
successful synchronous create-agent run does not have an empty username —
for the agent name `Mira` its username is `Mira`. -/
theorem createAgent_placeholder_username_not_empty :
    ∃ pr ∈ (createAgent sampleOracleOk { agents := [], profiles := [] }
      "Mira".data "playful".data "female".data "a1b2".data 7).1.profiles,
      pr.username = "Mira".data ∧ pr.username ≠ [] := by decide

/-- C4 (amended): for every successful synchronous create-agent run, the
placeholder SocialProfile has an empty status (and empty profile url), while
its username is the trimmed agent name — non-empty, not the empty string
the claim states. -/
theorem createAgent_placeholder_fields (o : Oracle) (s : Store)
    (nm pers gen newId d uri : List Char) (im : List Char × List Char)
    (now : Nat)
    (hn : goTrimSpace nm ≠ []) (hp : goTrimSpace pers ≠ [])
    (hg : goTrimSpace gen ≠ [])
    (happ : o.appearanceResp = .ok d)
    (hins : o.insertOk = true)
    (himg : o.imageResp = .ok im)
    (hupl : o.uploadResp = .ok uri)
    (hpu : o.portraitUpdateOk = true)
    (hups : o.profileUpsertOk = true)
    (hfresh : ∀ a ∈ s.agents, a.id ≠ newId)
    (hfreshP : ∀ q ∈ s.profiles, q.agent_id ≠ newId) :
    ∃ pr, findProfile? (createAgent o s nm pers gen newId now).1.profiles
        newId = some pr ∧
      pr.username = goTrimSpace nm ∧ pr.status = [] ∧ pr.profile_url = [] ∧
      pr.created_at = now ∧ pr.updated_at = now := by
  have hval : ¬ (goTrimSpace nm = [] ∨ goTrimSpace pers = [] ∨
      goTrimSpace gen = []) := by
    push_neg
    exact ⟨hn, hp, hg⟩
  have hfind : findAgent? (s.agents ++ [newAgentDoc newId (goTrimSpace nm)
      (goTrimSpace pers) (goTrimSpace gen)
      (buildSystemPrompt (goTrimSpace nm) (goTrimSpace pers) (goTrimSpace gen))
      (goTrimSpace d) now]) newId =
      some (newAgentDoc newId (goTrimSpace nm)
      (goTrimSpace pers) (goTrimSpace gen)
      (buildSystemPrompt (goTrimSpace nm) (goTrimSpace pers) (goTrimSpace gen))
      (goTrimSpace d) now) := findAgent?_append_fresh hfresh rfl
  have hfindP : findProfile? (s.profiles ++
      [placeholderProfile newId (goTrimSpace nm) now]) newId =
      some (placeholderProfile newId (goTrimSpace nm) now) :=
    findProfile?_append_fresh hfreshP rfl
  refine ⟨placeholderProfile newId (goTrimSpace nm) now, ?_, ?_, rfl, rfl,
    rfl, rfl⟩
  · simp [createAgent, hval, happ, hins, himg, hupl, hpu, hups, hfind,
      upsertInitialProfile, any_agentId_false hfreshP, hfindP]
  · simp only [placeholderProfile, placeholderUsername, goTrimSpace_idem]
    rw [if_neg hn]

/-- C4 amended-claim witness at a concrete successful run. -/
theorem createAgent_placeholder_fields_witness :
    ∃ pr, findProfile? (createAgent sampleOracleOk
        { agents := [], profiles := [] } "Mira".data "playful".data
        "female".data "a1b2".data 7).1.profiles "a1b2".data = some pr ∧
      pr.username = goTrimSpace "Mira".data ∧ pr.status = [] ∧
      pr.profile_url = [] ∧ pr.created_at = 7 ∧ pr.updated_at = 7 :=
  createAgent_placeholder_fields _ _ _ _ _ _ _ _ _ _ (by decide) (by decide)
    (by decide) rfl rfl rfl rfl rfl rfl (by simp) (by simp)

/-- C5: upserting the SocialProfile placeholder twice for the same agent key
yields exactly one document for that key; its insert-only fields (agent id,
username, status, profile url, created-at) keep the values fixed by the
first write, while its updated-at is refreshed to the second call's time. -/
theorem upsertInitialProfile_twice (ps : List ProfileDoc) (aid u1 u2 : List Char)
    (t1 t2 : Nat) (hfresh : ∀ p ∈ ps, p.agent_id ≠ aid) :
    countProfiles (upsertInitialProfile (upsertInitialProfile ps aid u1 t1)
      aid u2 t2) aid = 1 ∧
    ∃ pr1 pr2,
      findProfile? (upsertInitialProfile ps aid u1 t1) aid = some pr1 ∧
      findProfile? (upsertInitialProfile (upsertInitialProfile ps aid u1 t1)
        aid u2 t2) aid = some pr2 ∧
      pr1.created_at = t1 ∧ pr1.updated_at = t1 ∧
      pr2.agent_id = pr1.agent_id ∧ pr2.username = pr1.username ∧
      pr2.status = pr1.status ∧ pr2.profile_url = pr1.profile_url ∧
      pr2.created_at = pr1.created_at ∧ pr2.updated_at = t2 := by
  have h1 : upsertInitialProfile ps aid u1 t1 =
      ps ++ [placeholderProfile aid u1 t1] := by
    simp [upsertInitialProfile, any_agentId_false hfresh]
  have hid1 : (placeholderProfile aid u1 t1).agent_id = aid := by
    simp [placeholderProfile]
  have hid2 : ({ placeholderProfile aid u1 t1 with
      updated_at := t2 } : ProfileDoc).agent_id = aid := by
    simp [placeholderProfile]
  have hany2 : ((ps ++ [placeholderProfile aid u1 t1]).any
      fun p => decide (p.agent_id = aid)) = true :=
    any_agentId_true (List.mem_append_right _ (List.mem_cons_self _ _)) hid1
  have h2 : upsertInitialProfile (ps ++ [placeholderProfile aid u1 t1])
      aid u2 t2 = ps ++ [{ placeholderProfile aid u1 t1 with
        updated_at := t2 }] := by
    simp only [upsertInitialProfile, hany2, if_true]
    exact setUpdatedFirst_append_fresh (p := placeholderProfile aid u1 t1)
      hfresh hid1
  rw [h1, h2]
  constructor
  · rw [countProfiles_append, countProfiles_eq_zero hfresh]
    simp [countProfiles, hid1]
  · refine ⟨placeholderProfile aid u1 t1,
      { placeholderProfile aid u1 t1 with updated_at := t2 },
      ?_, ?_, rfl, rfl, rfl, rfl, rfl, rfl, rfl, rfl⟩
    · exact findProfile?_append_fresh (p := placeholderProfile aid u1 t1)
        hfresh hid1
    · exact findProfile?_append_fresh
        (p := { placeholderProfile aid u1 t1 with updated_at := t2 })
        hfresh hid2

/-- C5 witness: the double upsert at a concrete key and empty collection. -/
theorem upsertInitialProfile_twice_witness :
    countProfiles (upsertInitialProfile (upsertInitialProfile [] "a1b2".data
      "Mira".data 3) "a1b2".data "Zoe".data 9) "a1b2".data = 1 ∧
    ∃ pr1 pr2,
      findProfile? (upsertInitialProfile [] "a1b2".data "Mira".data 3)
        "a1b2".data = some pr1 ∧
      findProfile? (upsertInitialProfile (upsertInitialProfile [] "a1b2".data
        "Mira".data 3) "a1b2".data "Zoe".data 9) "a1b2".data = some pr2 ∧
      pr1.created_at = 3 ∧ pr1.updated_at = 3 ∧
      pr2.agent_id = pr1.agent_id ∧ pr2.username = pr1.username ∧
      pr2.status = pr1.status ∧ pr2.profile_url = pr1.profile_url ∧
      pr2.created_at = pr1.created_at ∧ pr2.updated_at = 9 :=
  upsertInitialProfile_twice [] "a1b2".data "Mira".data "Zoe".data 3 9
    (by simp)

/-- C2: when no SocialProfile placeholder exists for the agent key, the
enrichment job's final update matches zero documents, the job fails with the
consistency error (`placeholderMissing`), and the store is unchanged — in
particular no SocialProfile document is inserted. -/
theorem enrich_missing_placeholder (o : EnrichOracle) (s : Store)
    (aid nowStr : List Char) (now : Nat) (a : AgentDoc) (r t : List Char)
    (ha : findAgent? s.agents aid = some a)
    (hu : o.usernameResp = .ok r)
    (ht : o.statusResp = .ok t)
    (hst : sanitizeStatus t ≠ [])
    (hup : o.updateOk = true)
    (hmiss : ∀ p ∈ s.profiles, p.agent_id ≠ aid) :
    enrich o s aid nowStr now = (s, .error .placeholderMissing) ∧
    (∀ u st url, (enrichFirstProfile s.profiles aid u st url now).2 = 0) := by
  constructor
  · obtain ⟨uu, hgen, _⟩ := generateSocialUsernameCore_ok a.name a.id nowStr r
    simp [enrich, ha, hu, ht, hgen, hup, hst,
      enrichFirstProfile_no_match hmiss]
  · intro u st url
    rw [enrichFirstProfile_no_match hmiss]

/-- C2 witness: enrichment against a store holding the agent but no
placeholder profile fails with the consistency error and mutates nothing. -/
theorem enrich_missing_placeholder_witness :
    enrich sampleEnrichOracle
      { agents := [sampleAgentDoc], profiles := [] } "a1b2".data
      "171".data 9 =
      ({ agents := [sampleAgentDoc], profiles := [] },
        .error .placeholderMissing) ∧
    (∀ u st url, (enrichFirstProfile ([] : List ProfileDoc) "a1b2".data
      u st url 9).2 = 0) :=
  enrich_missing_placeholder _ _ _ _ _ sampleAgentDoc _ _ (by decide) rfl rfl
    (by decide) rfl (by simp)

end BuddyAgent
